import Mathlib

set_option maxHeartbeats 1000000

/-!
Shallow embedding of `src/validator.ts`: a value-validation utility with
primitive validators (`required`, `min`, `max`, `minLength`, `maxLength`,
`pattern`) and a combinator `validate` that runs a list of validators and
merges their error records.

Modelling choices:
* JavaScript values are embedded as `JSValue`: `null`, `undefined`, booleans,
  numbers, strings and arrays.  Numbers are modelled as integers (`Int`);
  the repository only compares and prints numbers, so no claim depends on
  non-integral floats or on `NaN` numbers themselves (JS `NaN` shows up only
  through the `isNaN` coercion check, modelled by `toNumber` returning
  `none`).
* A JS object of error entries (`ValidationErrors`) is an association list
  from rule keys to error details, in insertion order; the object spread
  `\x7b...a, ...b\x7d` is `objAssign`.
* A JS `RegExp` is an opaque matcher: its `source`/`flags` strings plus its
  `test` function on strings.
-/

inductive JSValue : Type where
  | null : JSValue
  | undef : JSValue
  | bool : Bool → JSValue
  | num : Int → JSValue
  | str : String → JSValue
  | arr : List JSValue → JSValue

/-- The `length` property of a value: strings and arrays have one,
every other embedded value yields `undefined` (here `none`). -/
def jsLength : JSValue → Option Nat
  | .str s => some s.length
  | .arr xs => some xs.length
  | _ => none

/-- Source `isEmptyValue` (validator.ts line 119):
`value === null || typeof value === 'undefined' || value.length === 0`. -/
def isEmptyValue (value : JSValue) : Bool :=
  match value with
  | .null => true
  | .undef => true
  | v => jsLength v == some 0

mutual

/-- JS `ToString` on the embedded universe (used by `RegExp.test` coercion
and by array-to-number coercion). -/
def jsToString : JSValue → String
  | .null => "null"
  | .undef => "undefined"
  | .bool b => if b then "true" else "false"
  | .num n => toString n
  | .str s => s
  | .arr xs => joinElems xs

/-- JS `Array.prototype.toString`: elements joined by commas, with `null`
and `undefined` elements rendered as the empty string. -/
def joinElems : List JSValue → String
  | [] => ""
  | x :: xs =>
    let s := match x with
      | .null => ""
      | .undef => ""
      | y => jsToString y
    match xs with
    | [] => s
    | _ => s ++ "," ++ joinElems xs

end

/-- Whitespace stripped by JS `ToNumber` (modelled: the common ASCII
whitespace characters). -/
def isJsWhitespace (c : Char) : Bool :=
  c = ' ' || c = '\t' || c = '\n' || c = '\r'

/-- Strip leading and trailing whitespace from a character list. -/
def trimWs (cs : List Char) : List Char :=
  ((cs.dropWhile isJsWhitespace).reverse.dropWhile isJsWhitespace).reverse

/-- Accumulate a decimal digit string into a number; `none` on any
non-digit character. -/
def natOfDigitsAux (acc : Nat) : List Char → Option Nat
  | [] => some acc
  | c :: cs =>
    if c.isDigit then natOfDigitsAux (acc * 10 + (c.toNat - Char.toNat '0')) cs
    else none

/-- A nonempty all-digit character list as a number. -/
def natOfDigits (cs : List Char) : Option Nat :=
  if cs.isEmpty then none else natOfDigitsAux 0 cs

/-- An optionally signed decimal integer literal. -/
def parseIntChars : List Char → Option Int
  | '-' :: rest => (natOfDigits rest).map (fun n => -(n : Int))
  | '+' :: rest => (natOfDigits rest).map (fun n => (n : Int))
  | cs => (natOfDigits cs).map (fun n => (n : Int))

/-- JS string-to-number coercion, restricted to the integer number model:
a blank string coerces to `0`, otherwise the trimmed string must parse as an
integer literal; anything else is `NaN` (`none`). -/
def strToNumber (s : String) : Option Int :=
  let cs := trimWs s.data
  if cs.isEmpty then some 0 else parseIntChars cs

/-- JS `ToNumber` on the embedded universe; `none` stands for `NaN`, so
`isNaN value` is `(toNumber value).isNone`. -/
def toNumber : JSValue → Option Int
  | .null => some 0
  | .undef => none
  | .bool b => some (if b then 1 else 0)
  | .num n => some n
  | .str s => strToNumber s
  | .arr xs => strToNumber (joinElems xs)

/-- A JS `RegExp`, kept opaque: its source and flag strings (for the
stringified form appearing in messages) and its `test` predicate. -/
structure JSRegExp : Type where
  source : String
  flags : String
  test : String → Bool

/-- JS `RegExp.prototype.toString`: `/source/flags`. -/
def regexToString (r : JSRegExp) : String :=
  "/" ++ r.source ++ "/" ++ r.flags

/-- The `reason` payloads produced by the validators (validator.ts):
`\x7bmin, actual\x7d`, `\x7bmax, actual\x7d`,
`\x7brequiredLength, actualLength\x7d`,
`\x7brequiredPattern, actualValue\x7d`. -/
inductive Reason : Type where
  | minR : Int → JSValue → Reason
  | maxR : Int → JSValue → Reason
  | lengthR : Int → Int → Reason
  | patternR : JSRegExp → JSValue → Reason

/-- One error entry's value: a message and an optional structured reason. -/
structure ErrorDetail : Type where
  message : String
  reason : Option Reason

/-- A `ValidationErrors` object: rule key to detail, in insertion order. -/
abbrev ValidationErrors : Type := List (String × ErrorDetail)

/-- A validator: `(value: any) => ValidationErrors | null`. -/
abbrev ValidatorFn : Type := JSValue → Option ValidationErrors

/-- The result record of `validate`. -/
structure ValidationResult : Type where
  errors : Option ValidationErrors
  valid : Bool

namespace Validators

/-- Source `Validators.required` (validator.ts line 18). -/
def required (value : JSValue) : Option ValidationErrors :=
  if isEmptyValue value then
    some [("required", ⟨"\"value\" is required", none⟩)]
  else
    none

/-- Source `Validators.min` (validator.ts lines 21-36).  The guard
`!isNaN(value) && value < min` becomes: `toNumber value` is a number `n`
and `n < min`. -/
def min (min : Int) : ValidatorFn := fun value =>
  if isEmptyValue value || isEmptyValue (.num min) then
    none
  else
    match toNumber value with
    | none => none
    | some n =>
      if n < min then
        some [("min",
          ⟨s!"\"value\" must be greater than {min}", some (.minR min value)⟩)]
      else
        none

/-- Source `Validators.max` (validator.ts lines 37-52). -/
def max (max : Int) : ValidatorFn := fun value =>
  if isEmptyValue value || isEmptyValue (.num max) then
    none
  else
    match toNumber value with
    | none => none
    | some n =>
      if n > max then
        some [("max",
          ⟨s!"\"value\" must be less than {max}", some (.maxR max value)⟩)]
      else
        none

/-- Source `Validators.minLength` (validator.ts lines 53-69);
`value.length ?? 0` is `(jsLength value).getD 0`. -/
def minLength (minLength : Int) : ValidatorFn := fun value =>
  if isEmptyValue value then
    none
  else
    let length : Int := ((jsLength value).getD 0 : Nat)
    if length < minLength then
      some [("minLength",
        ⟨s!"\"value\" length must be at least {minLength} characters long",
         some (.lengthR minLength length)⟩)]
    else
      none

/-- Source `Validators.maxLength` (validator.ts lines 70-86). -/
def maxLength (maxLength : Int) : ValidatorFn := fun value =>
  if isEmptyValue value then
    none
  else
    let length : Int := ((jsLength value).getD 0 : Nat)
    if length > maxLength then
      some [("maxLength",
        ⟨s!"\"value\" length must be less than {maxLength} characters long",
         some (.lengthR maxLength length)⟩)]
    else
      none

/-- Source `Validators.pattern` (validator.ts lines 87-105); `p.test value`
coerces the value to a string first. -/
def pattern (p : JSRegExp) : ValidatorFn := fun value =>
  if isEmptyValue value then
    none
  else if p.test (jsToString value) then
    none
  else
    some [("pattern",
      ⟨s!"\"value\" fails to match the required pattern: {regexToString p}",
       some (.patternR p value)⟩)]

end Validators

/-- First-match lookup of a key in an error object, as JS property access
on the association-list representation. -/
def lookupKey (k : String) : ValidationErrors → Option ErrorDetail
  | [] => none
  | p :: rest => if p.1 = k then some p.2 else lookupKey k rest

/-- JS `Object.keys` on the association-list representation. -/
def keysOf (m : ValidationErrors) : List String := m.map Prod.fst

/-- Replace an entry's value by the value `b` holds for the same key, when
`b` has one. -/
def overrideWith (b : ValidationErrors) (p : String × ErrorDetail) :
    String × ErrorDetail :=
  match lookupKey p.1 b with
  | some d => (p.1, d)
  | none => p

/-- The object spread `\x7b...a, ...b\x7d`: `a`'s keys in order with `b`'s
value where `b` also has the key, then `b`'s remaining keys in order. -/
def objAssign (a b : ValidationErrors) : ValidationErrors :=
  a.map (overrideWith b) ++ b.filter (fun p => (lookupKey p.1 a).isNone)

/-- The reducer body of `mergeErrors`:
`error !== null ? \x7b...result, ...error\x7d : result`. -/
def mergeStep (result : ValidationErrors) (error : Option ValidationErrors) :
    ValidationErrors :=
  match error with
  | some e => objAssign result e
  | none => result

/-- Source `mergeErrors` (validator.ts lines 127-133): reduce with object
spread starting from `\x7b\x7d`, then `null` when the accumulator has no
keys. -/
def mergeErrors (errors : List (Option ValidationErrors)) : Option ValidationErrors :=
  let result := errors.foldl mergeStep []
  if (keysOf result).length = 0 then none else some result

/-- Source `executeValidators` (validator.ts lines 123-125). -/
def executeValidators (value : JSValue) (validators : List ValidatorFn) :
    List (Option ValidationErrors) :=
  validators.map (fun v => v value)

/-- The `ValidatorFn | ValidatorFn[]` argument of `validate`. -/
inductive ValidatorArg : Type where
  | single : ValidatorFn → ValidatorArg
  | list : List ValidatorFn → ValidatorArg

/-- The `Array.isArray` normalization at the top of `validate`. -/
def normalizeValidators : ValidatorArg → List ValidatorFn
  | .single f => [f]
  | .list fs => fs

/-- Source `validate` (validator.ts lines 108-117), including its
redundant final branch on `errors !== null`. -/
def validate (value : JSValue) (validators : ValidatorArg) : ValidationResult :=
  let vs := normalizeValidators validators
  let errors := mergeErrors (executeValidators value vs)
  let valid := errors.isNone
  if errors.isSome then ⟨errors, valid⟩ else ⟨errors, valid⟩

/-! ### Lookup and key lemmas for the merge algebra -/

/-- Left-biased choice on optional lookup results. -/
def orO (x y : Option ErrorDetail) : Option ErrorDetail :=
  match x with
  | some d => some d
  | none => y

theorem orO_none_right (x : Option ErrorDetail) : orO x none = x := by
  cases x <;> rfl

theorem orO_assoc (x y z : Option ErrorDetail) :
    orO (orO x y) z = orO x (orO y z) := by
  cases x <;> rfl

theorem orO_eq_none_iff (x y : Option ErrorDetail) :
    orO x y = none ↔ x = none ∧ y = none := by
  cases x <;> simp [orO]

@[simp]
theorem lookupKey_nil (k : String) : lookupKey k [] = none := rfl

@[simp]
theorem lookupKey_cons (k : String) (p : String × ErrorDetail)
    (l : ValidationErrors) :
    lookupKey k (p :: l) = if p.1 = k then some p.2 else lookupKey k l := rfl

@[simp]
theorem keysOf_nil : keysOf [] = [] := rfl

@[simp]
theorem keysOf_cons (p : String × ErrorDetail) (l : ValidationErrors) :
    keysOf (p :: l) = p.1 :: keysOf l := rfl

theorem keysOf_append (a b : ValidationErrors) :
    keysOf (a ++ b) = keysOf a ++ keysOf b := List.map_append _ a b

theorem lookupKey_eq_none_iff (k : String) (l : ValidationErrors) :
    lookupKey k l = none ↔ k ∉ keysOf l := by
  induction l with
  | nil => simp
  | cons p l ih =>
    rcases eq_or_ne p.1 k with h | h
    · subst h
      simp
    · simp only [lookupKey_cons, if_neg h, keysOf_cons, List.mem_cons, ih]
      constructor
      · intro hnot
        rintro (hk | hk)
        · exact h hk.symm
        · exact hnot hk
      · intro hnot hk
        exact hnot (Or.inr hk)

theorem lookupKey_isSome_iff (k : String) (l : ValidationErrors) :
    (lookupKey k l).isSome = true ↔ k ∈ keysOf l := by
  rw [Option.isSome_iff_ne_none, ne_eq, lookupKey_eq_none_iff, not_not]

theorem lookupKey_append (k : String) (l1 l2 : ValidationErrors) :
    lookupKey k (l1 ++ l2) = orO (lookupKey k l1) (lookupKey k l2) := by
  induction l1 with
  | nil => rfl
  | cons p l1 ih =>
    rcases eq_or_ne p.1 k with h | h
    · simp [h, orO]
    · simp [h, ih]

@[simp]
theorem fst_overrideWith (b : ValidationErrors) (p : String × ErrorDetail) :
    (overrideWith b p).1 = p.1 := by
  unfold overrideWith
  cases lookupKey p.1 b <;> rfl

theorem lookupKey_map_overrideWith (k : String) (a b : ValidationErrors) :
    lookupKey k (a.map (overrideWith b)) =
      match lookupKey k a with
      | none => none
      | some d => orO (lookupKey k b) (some d) := by
  induction a with
  | nil => rfl
  | cons p a ih =>
    rcases eq_or_ne p.1 k with h | h
    · subst h
      simp only [List.map_cons, lookupKey_cons, fst_overrideWith, if_pos rfl]
      unfold overrideWith
      cases hb : lookupKey p.1 b <;> simp [orO, hb]
    · simp [h, ih]

theorem lookupKey_filter_notin (k : String) (a b : ValidationErrors) :
    lookupKey k (b.filter (fun p => (lookupKey p.1 a).isNone)) =
      if (lookupKey k a).isNone then lookupKey k b else none := by
  induction b with
  | nil => simp
  | cons q b ih =>
    by_cases hq : (lookupKey q.1 a).isNone
    · rw [show List.filter (fun p => (lookupKey p.1 a).isNone) (q :: b)
          = q :: List.filter (fun p => (lookupKey p.1 a).isNone) b from
          List.filter_cons_of_pos hq]
      rcases eq_or_ne q.1 k with h | h
      · subst h
        simp [hq]
      · simp [h, ih]
    · rw [show List.filter (fun p => (lookupKey p.1 a).isNone) (q :: b)
          = List.filter (fun p => (lookupKey p.1 a).isNone) b from
          List.filter_cons_of_neg (by simpa using hq)]
      rcases eq_or_ne q.1 k with h | h
      · subst h
        rw [ih, if_neg hq, if_neg hq]
      · simp [h, ih]

theorem lookupKey_objAssign (k : String) (a b : ValidationErrors) :
    lookupKey k (objAssign a b) = orO (lookupKey k b) (lookupKey k a) := by
  unfold objAssign
  rw [lookupKey_append, lookupKey_map_overrideWith, lookupKey_filter_notin]
  cases ha : lookupKey k a <;> cases hb : lookupKey k b <;> simp [orO]

theorem keysOf_map_overrideWith (a b : ValidationErrors) :
    keysOf (a.map (overrideWith b)) = keysOf a := by
  induction a with
  | nil => rfl
  | cons p a ih => simp [keysOf, ih]

theorem keysOf_filter_notin (a b : ValidationErrors) :
    keysOf (b.filter (fun p => (lookupKey p.1 a).isNone)) =
      (keysOf b).filter (fun k => (lookupKey k a).isNone) := by
  induction b with
  | nil => rfl
  | cons q b ih =>
    by_cases hq : (lookupKey q.1 a).isNone
    · rw [show List.filter (fun p => (lookupKey p.1 a).isNone) (q :: b)
          = q :: List.filter (fun p => (lookupKey p.1 a).isNone) b from
          List.filter_cons_of_pos hq,
        keysOf_cons, keysOf_cons,
        show List.filter (fun k => (lookupKey k a).isNone) (q.1 :: keysOf b)
          = q.1 :: List.filter (fun k => (lookupKey k a).isNone) (keysOf b) from
          List.filter_cons_of_pos hq, ih]
    · rw [show List.filter (fun p => (lookupKey p.1 a).isNone) (q :: b)
          = List.filter (fun p => (lookupKey p.1 a).isNone) b from
          List.filter_cons_of_neg (by simpa using hq),
        keysOf_cons,
        show List.filter (fun k => (lookupKey k a).isNone) (q.1 :: keysOf b)
          = List.filter (fun k => (lookupKey k a).isNone) (keysOf b) from
          List.filter_cons_of_neg (by simpa using hq), ih]

theorem keysOf_objAssign (a b : ValidationErrors) :
    keysOf (objAssign a b) =
      keysOf a ++ (keysOf b).filter (fun k => (lookupKey k a).isNone) := by
  unfold objAssign
  rw [keysOf_append, keysOf_map_overrideWith, keysOf_filter_notin]

theorem mem_keysOf_objAssign (k : String) (a b : ValidationErrors) :
    k ∈ keysOf (objAssign a b) ↔ k ∈ keysOf a ∨ k ∈ keysOf b := by
  rw [keysOf_objAssign, List.mem_append, List.mem_filter]
  constructor
  · rintro (h | ⟨h, _⟩)
    · exact Or.inl h
    · exact Or.inr h
  · rintro (h | h)
    · exact Or.inl h
    · by_cases ha : k ∈ keysOf a
      · exact Or.inl ha
      · exact Or.inr ⟨h, by
          simpa [Option.isNone_iff_eq_none, lookupKey_eq_none_iff]⟩

theorem nodup_keysOf_objAssign {a b : ValidationErrors}
    (ha : (keysOf a).Nodup) (hb : (keysOf b).Nodup) :
    (keysOf (objAssign a b)).Nodup := by
  rw [keysOf_objAssign]
  refine List.Nodup.append ha (hb.filter _) ?_
  intro k hka hkf
  rcases List.mem_filter.mp hkf with ⟨_, hnone⟩
  rw [Option.isNone_iff_eq_none, lookupKey_eq_none_iff] at hnone
  exact hnone hka

theorem errors_ext : ∀ {a b : ValidationErrors},
    (keysOf a).Nodup → keysOf a = keysOf b →
    (∀ k, lookupKey k a = lookupKey k b) → a = b := by
  intro a
  induction a with
  | nil =>
    intro b _ hk _
    cases b with
    | nil => rfl
    | cons q b => simp at hk
  | cons p a ih =>
    intro b hnd hk hl
    cases b with
    | nil => simp at hk
    | cons q b =>
      rw [keysOf_cons, keysOf_cons, List.cons_eq_cons] at hk
      obtain ⟨hk1, hk2⟩ := hk
      have hv : some p.2 = some q.2 := by
        have h := hl p.1
        rw [lookupKey_cons, lookupKey_cons, if_pos rfl, if_pos hk1.symm] at h
        exact h
      have hpq : p = q := Prod.ext hk1 (Option.some.inj hv)
      have hhead : p.1 ∉ keysOf a := (List.nodup_cons.mp hnd).1
      have htl : a = b := by
        refine ih (List.nodup_cons.mp hnd).2 hk2 ?_
        intro k
        rcases eq_or_ne k p.1 with h | h
        · subst h
          rw [(lookupKey_eq_none_iff _ _).mpr hhead,
            (lookupKey_eq_none_iff _ _).mpr (hk2 ▸ hhead)]
        · have := hl k
          rwa [lookupKey_cons, lookupKey_cons, if_neg (fun hh => h hh.symm),
            if_neg (fun hh => h (hk1 ▸ hh.symm))] at this
      rw [hpq, htl]

theorem objAssign_assoc {a b c : ValidationErrors}
    (ha : (keysOf a).Nodup) (hb : (keysOf b).Nodup) (hc : (keysOf c).Nodup) :
    objAssign (objAssign a b) c = objAssign a (objAssign b c) := by
  refine errors_ext (nodup_keysOf_objAssign (nodup_keysOf_objAssign ha hb) hc)
    ?_ ?_
  · rw [keysOf_objAssign (objAssign a b) c, keysOf_objAssign a b,
      keysOf_objAssign a (objAssign b c), keysOf_objAssign b c,
      List.append_assoc]
    congr 1
    rw [List.filter_append]
    congr 1
    rw [List.filter_filter]
    refine List.filter_congr ?_
    intro k _
    rw [lookupKey_objAssign]
    cases hxa : lookupKey k a <;> cases hxb : lookupKey k b <;> simp [orO]
  · intro k
    rw [lookupKey_objAssign, lookupKey_objAssign, lookupKey_objAssign,
      lookupKey_objAssign, orO_assoc]

/-! ### Fold lemmas for `mergeErrors` -/

theorem objAssign_nil_left (b : ValidationErrors) : objAssign [] b = b := by
  unfold objAssign
  simp [lookupKey_nil]

theorem objAssign_nil_right (a : ValidationErrors) : objAssign a [] = a := by
  unfold objAssign
  have h : a.map (overrideWith []) = a.map id := by
    refine List.map_congr_left ?_
    intro p _
    rfl
  rw [h, List.map_id, List.filter_nil, List.append_nil]

theorem objAssign_eq_nil_iff (a b : ValidationErrors) :
    objAssign a b = [] ↔ a = [] ∧ b = [] := by
  constructor
  · intro h
    rcases List.append_eq_nil.mp h with ⟨hmap, hfil⟩
    have ha : a = [] := List.map_eq_nil_iff.mp hmap
    subst ha
    rw [objAssign_nil_left] at h
    exact ⟨rfl, h⟩
  · rintro ⟨rfl, rfl⟩
    rfl

theorem mergeStep_some (A : ValidationErrors) (e : ValidationErrors) :
    mergeStep A (some e) = objAssign A e := rfl

theorem mergeStep_none (A : ValidationErrors) : mergeStep A none = A := rfl

theorem mergeStep_eq_nil_iff (A : ValidationErrors)
    (r : Option ValidationErrors) :
    mergeStep A r = [] ↔ A = [] ∧ (r = none ∨ r = some []) := by
  cases r with
  | none => simp [mergeStep]
  | some e => simp [mergeStep, objAssign_eq_nil_iff]

theorem foldl_mergeStep_eq_nil_iff (rs : List (Option ValidationErrors)) :
    ∀ A, rs.foldl mergeStep A = [] ↔
      A = [] ∧ ∀ r ∈ rs, r = none ∨ r = some [] := by
  induction rs with
  | nil => intro A; simp
  | cons r rs ih =>
    intro A
    rw [List.foldl_cons, ih, mergeStep_eq_nil_iff]
    simp only [List.forall_mem_cons]
    tauto

theorem mem_keysOf_foldl_mergeStep (rs : List (Option ValidationErrors)) :
    ∀ A (k : String), k ∈ keysOf (rs.foldl mergeStep A) ↔
      k ∈ keysOf A ∨ ∃ e, some e ∈ rs ∧ k ∈ keysOf e := by
  induction rs with
  | nil => intro A k; simp
  | cons r rs ih =>
    intro A k
    rw [List.foldl_cons, ih]
    cases r with
    | none =>
      simp only [mergeStep_none, List.mem_cons]
      constructor
      · rintro (h | ⟨e, he, hk⟩)
        · exact Or.inl h
        · exact Or.inr ⟨e, Or.inr he, hk⟩
      · rintro (h | ⟨e, (he | he), hk⟩)
        · exact Or.inl h
        · exact absurd he (by simp)
        · exact Or.inr ⟨e, he, hk⟩
    | some e0 =>
      simp only [mergeStep_some, mem_keysOf_objAssign, List.mem_cons]
      constructor
      · rintro ((h | h) | ⟨e, he, hk⟩)
        · exact Or.inl h
        · exact Or.inr ⟨e0, Or.inl rfl, h⟩
        · exact Or.inr ⟨e, Or.inr he, hk⟩
      · rintro (h | ⟨e, (he | he), hk⟩)
        · exact Or.inl (Or.inl h)
        · cases Option.some.inj he
          exact Or.inl (Or.inr hk)
        · exact Or.inr ⟨e, he, hk⟩

theorem nodup_keysOf_foldl_mergeStep (rs : List (Option ValidationErrors)) :
    ∀ A, (keysOf A).Nodup → (∀ e, some e ∈ rs → (keysOf e).Nodup) →
      (keysOf (rs.foldl mergeStep A)).Nodup := by
  induction rs with
  | nil => intro A hA _; exact hA
  | cons r rs ih =>
    intro A hA hrs
    rw [List.foldl_cons]
    refine ih _ ?_ ?_
    · cases r with
      | none => exact hA
      | some e =>
        exact nodup_keysOf_objAssign hA (hrs e (List.mem_cons_self _ _))
    · intro e he
      exact hrs e (List.mem_cons_of_mem _ he)

theorem foldl_mergeStep_from (rs : List (Option ValidationErrors)) :
    ∀ A, (keysOf A).Nodup → (∀ e, some e ∈ rs → (keysOf e).Nodup) →
      rs.foldl mergeStep A = objAssign A (rs.foldl mergeStep []) := by
  induction rs with
  | nil =>
    intro A _ _
    exact (objAssign_nil_right A).symm
  | cons r rs ih =>
    intro A hA hrs
    have hrs' : ∀ e, some e ∈ rs → (keysOf e).Nodup := by
      intro e he
      exact hrs e (List.mem_cons_of_mem _ he)
    rw [List.foldl_cons, List.foldl_cons]
    cases r with
    | none =>
      rw [mergeStep_none, mergeStep_none]
      exact ih A hA hrs'
    | some e =>
      have he : (keysOf e).Nodup := hrs e (List.mem_cons_self _ _)
      rw [mergeStep_some, mergeStep_some, objAssign_nil_left,
        ih (objAssign A e) (nodup_keysOf_objAssign hA he) hrs',
        ih e he hrs',
        objAssign_assoc hA he
          (nodup_keysOf_foldl_mergeStep rs [] List.nodup_nil hrs')]

theorem mergeErrors_eq_none_iff (rs : List (Option ValidationErrors)) :
    mergeErrors rs = none ↔ ∀ r ∈ rs, r = none ∨ r = some [] := by
  unfold mergeErrors
  by_cases h : (keysOf (rs.foldl mergeStep [])).length = 0
  · have hnil : rs.foldl mergeStep [] = [] := by
      have := List.length_eq_zero.mp (by simpa [keysOf] using h)
      exact this
    rw [if_pos h]
    exact iff_of_true rfl ((foldl_mergeStep_eq_nil_iff rs []).mp hnil).2
  · have hnil : rs.foldl mergeStep [] ≠ [] := by
      intro hc
      exact h (by simp [hc])
    rw [if_neg h]
    refine iff_of_false (by simp) ?_
    intro hall
    exact hnil ((foldl_mergeStep_eq_nil_iff rs []).mpr ⟨rfl, hall⟩)

theorem mergeErrors_getD (rs : List (Option ValidationErrors)) :
    (mergeErrors rs).getD [] = rs.foldl mergeStep [] := by
  unfold mergeErrors
  by_cases h : (keysOf (rs.foldl mergeStep [])).length = 0
  · rw [if_pos h]
    have hnil : rs.foldl mergeStep [] = [] :=
      List.length_eq_zero.mp (by simpa [keysOf] using h)
    rw [hnil]
    rfl
  · rw [if_neg h]
    rfl

theorem validate_eq (v : JSValue) (vs : ValidatorArg) :
    validate v vs =
      ⟨mergeErrors (executeValidators v (normalizeValidators vs)),
       (mergeErrors (executeValidators v (normalizeValidators vs))).isNone⟩ := by
  simp only [validate]
  rw [ite_self]

/-! ### Per-validator claims -/

theorem validate_errors (v : JSValue) (vs : ValidatorArg) :
    (validate v vs).errors =
      mergeErrors (executeValidators v (normalizeValidators vs)) := by
  rw [validate_eq]

theorem validate_valid (v : JSValue) (vs : ValidatorArg) :
    (validate v vs).valid =
      (mergeErrors (executeValidators v (normalizeValidators vs))).isNone := by
  rw [validate_eq]

/-- C3: for every numeric value `v` and threshold `m`, `min(m)(v)` is `null`
iff `v >= m` (or one of them is empty-per-predicate, which never holds for
numbers), and otherwise it is exactly the single-key `min` error carrying
the message and the `\x7bmin, actual\x7d` reason. -/
theorem C3_min_characterization (v m : Int) :
    Validators.min m (.num v)
      = (if v < m then
          some [("min",
            ⟨s!"\"value\" must be greater than {m}", some (.minR m (.num v))⟩)]
         else none) ∧
    (Validators.min m (.num v) = none ↔
      m ≤ v ∨ isEmptyValue (.num v) = true ∨ isEmptyValue (.num m) = true) := by
  have h1 : Validators.min m (.num v)
      = (if v < m then
          some [("min",
            ⟨s!"\"value\" must be greater than {m}", some (.minR m (.num v))⟩)]
         else none) := rfl
  refine ⟨h1, ?_⟩
  rw [h1]
  by_cases h : v < m
  · rw [if_pos h]
    refine iff_of_false (fun hc => Option.noConfusion hc) ?_
    rintro (hle | hemp | hemp)
    · omega
    · exact Bool.noConfusion hemp
    · exact Bool.noConfusion hemp
  · rw [if_neg h]
    exact iff_of_true rfl (Or.inl (by omega))

/-- C6: a non-numeric (`isNaN`) non-empty value passes both bound checks:
`min(m)` and `max(m)` return `null` on it. -/
theorem C6_nonnumeric_passes_bounds (v : JSValue) (m : Int)
    (hnum : toNumber v = none) (hemp : isEmptyValue v = false) :
    Validators.min m v = none ∧ Validators.max m v = none := by
  constructor
  · simp [Validators.min, hemp, hnum]
  · simp [Validators.max, hemp, hnum]

theorem C6_witness :
    toNumber (.str "foo") = none ∧ isEmptyValue (.str "foo") = false ∧
    Validators.min 5 (.str "foo") = none ∧
    Validators.max 5 (.str "foo") = none := by
  have h := C6_nonnumeric_passes_bounds (.str "foo") 5 (by decide) (by decide)
  exact ⟨by decide, by decide, h.1, h.2⟩

/-- C7: `minLength(n)` skips empty-per-predicate values; on other values it
is `null` iff the value's length (`0` when it has none) is at least `n`,
and otherwise it is exactly the single-key `minLength` error carrying the
message and the `\x7brequiredLength, actualLength\x7d` reason. -/
theorem C7_minLength_characterization (v : JSValue) (n : Int) :
    (isEmptyValue v = true → Validators.minLength n v = none) ∧
    (isEmptyValue v = false →
      ((Validators.minLength n v = none ↔ n ≤ ((jsLength v).getD 0 : Nat)) ∧
       (((jsLength v).getD 0 : Nat) < n →
         Validators.minLength n v =
           some [("minLength",
             ⟨s!"\"value\" length must be at least {n} characters long",
              some (.lengthR n ((jsLength v).getD 0 : Nat))⟩)]))) := by
  constructor
  · intro h
    simp [Validators.minLength, h]
  · intro h
    have h1 : Validators.minLength n v
        = (if (((jsLength v).getD 0 : Nat) : Int) < n then
            some [("minLength",
              ⟨s!"\"value\" length must be at least {n} characters long",
               some (.lengthR n ((jsLength v).getD 0 : Nat))⟩)]
           else none) := by
      simp [Validators.minLength, h]
    rw [h1]
    constructor
    · by_cases hl : (((jsLength v).getD 0 : Nat) : Int) < n
      · rw [if_pos hl]
        refine iff_of_false (fun hc => Option.noConfusion hc) ?_
        omega
      · rw [if_neg hl]
        exact iff_of_true rfl (by omega)
    · intro hl
      rw [if_pos hl]

theorem C7_witness :
    Validators.minLength 10 (.str "123456789")
      = some [("minLength",
          ⟨"\"value\" length must be at least 10 characters long",
           some (.lengthR 10 9)⟩)] := by
  have h :=
    ((C7_minLength_characterization (.str "123456789") 10).2 (by decide)).2
      (by decide)
  exact h.trans rfl

/-- C8: `pattern(r)` on a string `s` is `null` iff `r` matches `s` or `s`
is empty-per-predicate; otherwise it is the single-key `pattern` error whose
message embeds the regex's string form and whose reason is
`\x7brequiredPattern, actualValue\x7d`. -/
theorem C8_pattern_characterization (r : JSRegExp) (s : String) :
    (Validators.pattern r (.str s) = none ↔
      (r.test s = true ∨ isEmptyValue (.str s) = true)) ∧
    (isEmptyValue (.str s) = false → r.test s = false →
      Validators.pattern r (.str s) =
        some [("pattern",
          ⟨s!"\"value\" fails to match the required pattern: {regexToString r}",
           some (.patternR r (.str s))⟩)]) := by
  have hjs : jsToString (.str s) = s := by simp [jsToString]
  constructor
  · by_cases he : isEmptyValue (.str s)
    · simp [Validators.pattern, he]
    · by_cases ht : r.test s
      · simp [Validators.pattern, he, hjs, ht]
      · simp [Validators.pattern, he, hjs, ht]
  · intro he ht
    simp [Validators.pattern, he, hjs, ht]

theorem C8_witness :
    Validators.pattern
        ⟨"^https", "", fun t => "https".data.isPrefixOf t.data⟩
        (.str "http://x.com")
      = some [("pattern",
          ⟨"\"value\" fails to match the required pattern: /^https/",
           some (.patternR
             ⟨"^https", "", fun t => "https".data.isPrefixOf t.data⟩
             (.str "http://x.com"))⟩)] := by
  have h :=
    (C8_pattern_characterization
      ⟨"^https", "", fun t => "https".data.isPrefixOf t.data⟩
      "http://x.com").2 (by decide) (by decide)
  exact h.trans rfl

/-! ### Claims about `required` and the combinator -/

/-- C2 counterexample: the empty array is neither `null`, `undefined`, nor
the empty string, yet `required` rejects it (its `length` is `0`). -/
theorem C2_counterexample :
    Validators.required (.arr [])
        = some [("required", ⟨"\"value\" is required", none⟩)] ∧
    JSValue.arr [] ≠ JSValue.null ∧
    JSValue.arr [] ≠ JSValue.undef ∧
    JSValue.arr [] ≠ JSValue.str "" := by
  refine ⟨rfl, ?_, ?_, ?_⟩
  · exact fun h => JSValue.noConfusion h
  · exact fun h => JSValue.noConfusion h
  · exact fun h => JSValue.noConfusion h

/-- C2 (amended): `required v` is the single-key required-error exactly when
`v` is `null`, `undefined`, the empty string, or any value whose `length`
property is `0` (in this universe, the empty array); on every other value it
is `null`. -/
theorem C2_required_characterization (v : JSValue) :
    (Validators.required v
        = some [("required", ⟨"\"value\" is required", none⟩)] ↔
      (v = .null ∨ v = .undef ∨ jsLength v = some 0)) ∧
    (Validators.required v = none ↔
      ¬(v = .null ∨ v = .undef ∨ jsLength v = some 0)) := by
  have hchar : isEmptyValue v = true ↔
      (v = .null ∨ v = .undef ∨ jsLength v = some 0) := by
    cases v with
    | null => simp [isEmptyValue]
    | undef => simp [isEmptyValue]
    | bool b => simp [isEmptyValue, jsLength]
    | num n => simp [isEmptyValue, jsLength]
    | str s => simp [isEmptyValue, jsLength]
    | arr xs => simp [isEmptyValue, jsLength]
  by_cases he : isEmptyValue v
  · have h1 : Validators.required v
        = some [("required", ⟨"\"value\" is required", none⟩)] := by
      simp [Validators.required, he]
    rw [h1]
    exact ⟨iff_of_true rfl (hchar.mp he),
      iff_of_false (fun hc => Option.noConfusion hc)
        (not_not_intro (hchar.mp he))⟩
  · have h0 : isEmptyValue v = false := by simpa using he
    have h1 : Validators.required v = none := by
      simp [Validators.required, h0]
    have h2 : ¬(v = .null ∨ v = .undef ∨ jsLength v = some 0) := by
      intro hc
      rw [hchar.mpr hc] at h0
      exact Bool.noConfusion h0
    rw [h1]
    exact ⟨iff_of_false (fun hc => Option.noConfusion hc) h2,
      iff_of_true rfl h2⟩

theorem C2_witness :
    (Validators.required .null
        = some [("required", ⟨"\"value\" is required", none⟩)] ↔
      (JSValue.null = .null ∨ JSValue.null = .undef ∨
        jsLength JSValue.null = some 0)) ∧
    (Validators.required .null = none ↔
      ¬(JSValue.null = .null ∨ JSValue.null = .undef ∨
        jsLength JSValue.null = some 0)) :=
  C2_required_characterization .null

/-- C1 counterexample: a validator may return the empty error record; the
merged `errors` is then `null` even though the validator did not return
`null` (did not pass). -/
theorem C1_counterexample :
    (validate .null (.list [fun _ => some ([] : ValidationErrors)])).errors
        = none ∧
    (fun (_ : JSValue) => some ([] : ValidationErrors)) JSValue.null
        ≠ none := by
  exact ⟨rfl, fun h => Option.noConfusion h⟩

/-- C1 (amended): `valid` is `true` exactly when `errors` is `null`, and
`errors` is `null` exactly when every validator returned `null` or an error
record with no keys. -/
theorem C1_valid_errors_invariant (v : JSValue) (vs : ValidatorArg) :
    ((validate v vs).valid = true ↔ (validate v vs).errors = none) ∧
    ((validate v vs).errors = none ↔
      ∀ f ∈ normalizeValidators vs, f v = none ∨ f v = some []) := by
  rw [validate_eq]
  constructor
  · exact Option.isNone_iff_eq_none
  · rw [mergeErrors_eq_none_iff]
    unfold executeValidators
    constructor
    · intro h f hf
      exact h (f v) (List.mem_map_of_mem _ hf)
    · intro h r hr
      rcases List.mem_map.mp hr with ⟨f, hf, rfl⟩
      exact h f hf

theorem C1_witness :
    ((validate .null (.list [Validators.required])).valid = true ↔
      (validate .null (.list [Validators.required])).errors = none) ∧
    ((validate .null (.list [Validators.required])).errors = none ↔
      ∀ f ∈ normalizeValidators (.list [Validators.required]),
        f .null = none ∨ f .null = some []) :=
  C1_valid_errors_invariant .null (.list [Validators.required])

/-- C4: every validator runs (the executed result list is the pointwise
application of the validator list), the key set of the merged errors is the
union of the key sets of the non-null individual results, and the concrete
scenario `validate(null, [required, min(5), max(10)])` yields only the
`required` key. -/
theorem C4_no_short_circuit (v : JSValue) (fs : List ValidatorFn) :
    (executeValidators v fs).length = fs.length ∧
    (∀ i : Nat, (executeValidators v fs)[i]? = (fs[i]?).map (fun f => f v)) ∧
    (∀ k : String,
      k ∈ keysOf (((validate v (.list fs)).errors).getD []) ↔
        ∃ f ∈ fs, ∃ e, f v = some e ∧ k ∈ keysOf e) ∧
    (validate .null
        (.list [Validators.required, Validators.min 5,
          Validators.max 10])).errors
      = some [("required", ⟨"\"value\" is required", none⟩)] := by
  refine ⟨List.length_map _ _, ?_, ?_, rfl⟩
  · intro i
    simp [executeValidators]
  · intro k
    rw [validate_errors, mergeErrors_getD, mem_keysOf_foldl_mergeStep]
    show (k ∈ keysOf [] ∨ _) ↔ _
    simp only [keysOf_nil, List.not_mem_nil, false_or]
    constructor
    · rintro ⟨e, he, hk⟩
      rcases List.mem_map.mp he with ⟨f, hf, hfe⟩
      exact ⟨f, hf, e, hfe, hk⟩
    · rintro ⟨f, hf, e, hfe, hk⟩
      exact ⟨e, by
        rw [show normalizeValidators (.list fs) = fs from rfl]
        exact hfe ▸ List.mem_map_of_mem (fun g => g v) hf, hk⟩

/-! ### Spec-side merge description (for the refinement claims) -/

/-- Modelled from the spec's merge description (design §4.2 step 3): copy
one entry into the accumulator, overwriting the existing entry in place on
key collision, appending otherwise. -/
def insertEntry (acc : ValidationErrors) (entry : String × ErrorDetail) :
    ValidationErrors :=
  if (lookupKey entry.1 acc).isSome then
    acc.map (fun p => if p.1 = entry.1 then entry else p)
  else
    acc ++ [entry]

/-- Modelled from the spec's merge description: copy a non-null result's
entries into the accumulator, later entries overwriting earlier ones. -/
def copyInto (acc e : ValidationErrors) : ValidationErrors :=
  e.foldl insertEntry acc

/-- Modelled from the spec's merge description: fold the result sequence
left-to-right, accumulating one mapping. -/
def mergeSpecStep (acc : ValidationErrors) (r : Option ValidationErrors) :
    ValidationErrors :=
  match r with
  | some e => copyInto acc e
  | none => acc

/-- Modelled from the spec's merge description: the left-to-right fold of
the individual results, `null` when the accumulator has zero keys. -/
def mergeSpec (results : List (Option ValidationErrors)) :
    Option ValidationErrors :=
  let acc := results.foldl mergeSpecStep []
  if (keysOf acc).length = 0 then none else some acc

theorem keysOf_map_replace (acc : ValidationErrors)
    (x : String × ErrorDetail) :
    keysOf (acc.map (fun p => if p.1 = x.1 then x else p)) = keysOf acc := by
  induction acc with
  | nil => rfl
  | cons p acc ih =>
    by_cases h : p.1 = x.1
    · rw [List.map_cons, if_pos h, keysOf_cons, keysOf_cons, ih, h]
    · rw [List.map_cons, if_neg h, keysOf_cons, keysOf_cons, ih]

theorem keysOf_insertEntry (acc : ValidationErrors)
    (x : String × ErrorDetail) :
    keysOf (insertEntry acc x)
      = (if (lookupKey x.1 acc).isSome then keysOf acc
         else keysOf acc ++ [x.1]) := by
  unfold insertEntry
  by_cases h : (lookupKey x.1 acc).isSome
  · rw [if_pos h, if_pos h, keysOf_map_replace]
  · rw [if_neg h, if_neg h, keysOf_append]
    rfl

theorem lookupKey_map_replace (acc : ValidationErrors)
    (x : String × ErrorDetail) (k : String) :
    lookupKey k (acc.map (fun p => if p.1 = x.1 then x else p))
      = (if x.1 = k then (lookupKey k acc).map (fun _ => x.2)
         else lookupKey k acc) := by
  induction acc with
  | nil => simp
  | cons p acc ih =>
    by_cases hp : p.1 = x.1
    · rw [List.map_cons, if_pos hp]
      by_cases hk : x.1 = k
      · rw [lookupKey_cons, if_pos hk, if_pos hk, lookupKey_cons,
          if_pos (hp.trans hk)]
        rfl
      · rw [lookupKey_cons, if_neg hk, if_neg hk, lookupKey_cons,
          if_neg (fun hc => hk (hp ▸ hc)), ih, if_neg hk]
    · rw [List.map_cons, if_neg hp]
      by_cases hk : p.1 = k
      · rw [lookupKey_cons, if_pos hk, lookupKey_cons, if_pos hk,
          if_neg (fun hc => hp (hk ▸ hc.symm))]
      · rw [lookupKey_cons, if_neg hk, lookupKey_cons, if_neg hk, ih]

theorem lookupKey_insertEntry (acc : ValidationErrors)
    (x : String × ErrorDetail) (k : String) :
    lookupKey k (insertEntry acc x)
      = (if x.1 = k then some x.2 else lookupKey k acc) := by
  unfold insertEntry
  by_cases h : (lookupKey x.1 acc).isSome
  · rw [if_pos h, lookupKey_map_replace]
    by_cases hk : x.1 = k
    · rw [if_pos hk, if_pos hk]
      rcases Option.isSome_iff_exists.mp h with ⟨d, hd⟩
      rw [hk] at hd
      rw [hd]
      rfl
    · rw [if_neg hk, if_neg hk]
  · rw [if_neg h, lookupKey_append]
    by_cases hk : x.1 = k
    · have hnone : lookupKey k acc = none := by
        rw [← hk]
        exact Option.not_isSome_iff_eq_none.mp h
      rw [if_pos hk, hnone]
      simp [orO, lookupKey_cons, hk]
    · rw [if_neg hk]
      rw [show lookupKey k [x] = none from by simp [hk]]
      rw [orO_none_right]

theorem nodup_keysOf_insertEntry {acc : ValidationErrors}
    (x : String × ErrorDetail) (h : (keysOf acc).Nodup) :
    (keysOf (insertEntry acc x)).Nodup := by
  rw [keysOf_insertEntry]
  by_cases hs : (lookupKey x.1 acc).isSome
  · rw [if_pos hs]
    exact h
  · rw [if_neg hs]
    have hx : x.1 ∉ keysOf acc := by
      rw [← lookupKey_eq_none_iff]
      exact Option.not_isSome_iff_eq_none.mp hs
    exact List.Nodup.append h (List.nodup_singleton _)
      (by
        intro a ha hb
        rw [List.mem_singleton] at hb
        exact hx (hb ▸ ha))

theorem copyInto_lemmas (e : ValidationErrors) :
    ∀ acc, (keysOf e).Nodup →
      (keysOf (copyInto acc e)
          = keysOf acc ++ (keysOf e).filter (fun k => (lookupKey k acc).isNone)) ∧
      (∀ k, lookupKey k (copyInto acc e)
          = orO (lookupKey k e) (lookupKey k acc)) := by
  induction e with
  | nil =>
    intro acc _
    refine ⟨by simp [copyInto], ?_⟩
    intro k
    rfl
  | cons x e ih =>
    intro acc hnd
    have hx : x.1 ∉ keysOf e := (List.nodup_cons.mp hnd).1
    have hnd' : (keysOf e).Nodup := (List.nodup_cons.mp hnd).2
    have hstep : copyInto acc (x :: e) = copyInto (insertEntry acc x) e := rfl
    obtain ⟨ihk, ihl⟩ := ih (insertEntry acc x) hnd'
    have hfil : (keysOf e).filter
          (fun k => (lookupKey k (insertEntry acc x)).isNone)
        = (keysOf e).filter (fun k => (lookupKey k acc).isNone) := by
      refine List.filter_congr ?_
      intro k hk
      rw [lookupKey_insertEntry,
        if_neg (fun hc : x.1 = k => hx (by rw [hc]; exact hk))]
    constructor
    · rw [hstep, ihk, keysOf_insertEntry]
      by_cases hs : (lookupKey x.1 acc).isSome
      · rcases Option.isSome_iff_exists.mp hs with ⟨d, hd⟩
        have hdrop : List.filter (fun k => (lookupKey k acc).isNone)
              (keysOf (x :: e))
            = List.filter (fun k => (lookupKey k acc).isNone) (keysOf e) := by
          rw [keysOf_cons]
          refine List.filter_cons_of_neg ?_
          rw [hd]
          simp
        rw [if_pos hs, hfil, hdrop]
      · have hnone : lookupKey x.1 acc = none :=
          Option.not_isSome_iff_eq_none.mp hs
        have hkeep : List.filter (fun k => (lookupKey k acc).isNone)
              (keysOf (x :: e))
            = x.1 :: List.filter (fun k => (lookupKey k acc).isNone)
                (keysOf e) := by
          rw [keysOf_cons]
          refine List.filter_cons_of_pos ?_
          rw [hnone]
          rfl
        rw [if_neg hs, hfil, hkeep, List.append_assoc]
        rfl
    · intro k
      rw [hstep, ihl k, lookupKey_insertEntry, lookupKey_cons]
      by_cases hk : x.1 = k
      · rw [if_pos hk, if_pos hk]
        have hke : lookupKey k e = none :=
          (lookupKey_eq_none_iff _ _).mpr
            (fun hc => hx (by rw [hk]; exact hc))
        rw [hke]
        rfl
      · rw [if_neg hk, if_neg hk]

theorem copyInto_eq_objAssign {acc e : ValidationErrors}
    (hacc : (keysOf acc).Nodup) (he : (keysOf e).Nodup) :
    copyInto acc e = objAssign acc e := by
  obtain ⟨hk, hl⟩ := copyInto_lemmas e acc he
  refine errors_ext ?_ ?_ ?_
  · rw [hk]
    refine List.Nodup.append hacc (he.filter _) ?_
    intro a ha hb
    rcases List.mem_filter.mp hb with ⟨_, hnone⟩
    rw [Option.isNone_iff_eq_none, lookupKey_eq_none_iff] at hnone
    exact hnone ha
  · rw [hk, keysOf_objAssign]
  · intro k
    rw [hl k, lookupKey_objAssign]

theorem foldl_mergeSpecStep_eq (rs : List (Option ValidationErrors)) :
    ∀ acc, (keysOf acc).Nodup → (∀ e, some e ∈ rs → (keysOf e).Nodup) →
      rs.foldl mergeSpecStep acc = rs.foldl mergeStep acc := by
  induction rs with
  | nil => intro acc _ _; rfl
  | cons r rs ih =>
    intro acc hacc hrs
    have hrs' : ∀ e, some e ∈ rs → (keysOf e).Nodup := fun e he =>
      hrs e (List.mem_cons_of_mem _ he)
    rw [List.foldl_cons, List.foldl_cons]
    cases r with
    | none => exact ih acc hacc hrs'
    | some e =>
      have he : (keysOf e).Nodup := hrs e (List.mem_cons_self _ _)
      rw [show mergeSpecStep acc (some e) = copyInto acc e from rfl,
        mergeStep_some, copyInto_eq_objAssign hacc he]
      exact ih _ (nodup_keysOf_objAssign hacc he) hrs'

theorem mergeSpec_eq_mergeErrors (rs : List (Option ValidationErrors))
    (h : ∀ e, some e ∈ rs → (keysOf e).Nodup) :
    mergeSpec rs = mergeErrors rs := by
  unfold mergeSpec mergeErrors
  rw [foldl_mergeSpecStep_eq rs [] List.nodup_nil h]

/-- C5: the merged errors of `validate` are the spec's left-to-right
overwrite-fold of the individual results (`null` when the accumulator ends
with zero keys), and `validate(v, [])` is always `\x7berrors: null,
valid: true\x7d`.  The hypothesis states that each validator output is a
genuine JS object: its keys are distinct. -/
theorem C5_merge_is_spec_fold (v : JSValue) (fs : List ValidatorFn)
    (hwf : ∀ f ∈ fs, ∀ e, f v = some e → (keysOf e).Nodup) :
    (validate v (.list fs)).errors = mergeSpec (executeValidators v fs) ∧
    validate v (.list []) = ⟨none, true⟩ := by
  constructor
  · rw [validate_errors]
    refine (mergeSpec_eq_mergeErrors _ ?_).symm
    intro e he
    rcases List.mem_map.mp he with ⟨f, hf, hfe⟩
    exact hwf f hf e hfe
  · rfl

theorem C5_witness :
    (validate .null (.list [Validators.required])).errors
        = mergeSpec (executeValidators .null [Validators.required]) ∧
    validate .null (.list []) = ⟨none, true⟩ := by
  refine C5_merge_is_spec_fold .null [Validators.required] ?_
  intro f hf e he
  rcases List.mem_singleton.mp hf with rfl
  have he' : [("required", ⟨"\"value\" is required", none⟩)] = e :=
    Option.some.inj he
  rw [← he']
  exact List.nodup_singleton _

/-! ### Concatenation homomorphism -/

/-- Modelled from the claim: the right-biased key-union of two optional
error objects, reading `null` as the empty object and an empty union back
as `null`. -/
def specUnion (x y : Option ValidationErrors) : Option ValidationErrors :=
  let u := objAssign (x.getD []) (y.getD [])
  if (keysOf u).length = 0 then none else some u

theorem mergeErrors_append (rs ss : List (Option ValidationErrors))
    (h1 : ∀ e, some e ∈ rs → (keysOf e).Nodup)
    (h2 : ∀ e, some e ∈ ss → (keysOf e).Nodup) :
    mergeErrors (rs ++ ss) = specUnion (mergeErrors rs) (mergeErrors ss) := by
  have hfold : (rs ++ ss).foldl mergeStep []
      = objAssign (rs.foldl mergeStep []) (ss.foldl mergeStep []) := by
    rw [List.foldl_append]
    exact foldl_mergeStep_from ss (rs.foldl mergeStep [])
      (nodup_keysOf_foldl_mergeStep rs [] List.nodup_nil h1) h2
  show (if (keysOf ((rs ++ ss).foldl mergeStep [])).length = 0 then none
        else some ((rs ++ ss).foldl mergeStep []))
      = (if (keysOf (objAssign ((mergeErrors rs).getD [])
            ((mergeErrors ss).getD []))).length = 0 then none
         else some (objAssign ((mergeErrors rs).getD [])
            ((mergeErrors ss).getD [])))
  rw [hfold, mergeErrors_getD, mergeErrors_getD]

theorem mergeErrors_isNone_iff (rs : List (Option ValidationErrors)) :
    (mergeErrors rs).isNone = true ↔ rs.foldl mergeStep [] = [] := by
  unfold mergeErrors
  by_cases h : (keysOf (rs.foldl mergeStep [])).length = 0
  · rw [if_pos h]
    exact iff_of_true rfl (List.length_eq_zero.mp (by simpa [keysOf] using h))
  · rw [if_neg h]
    refine iff_of_false (by simp) ?_
    intro hc
    exact h (by simp [hc, keysOf])

/-- C10: `validate` is a homomorphism for list concatenation: the errors of
the concatenation are the right-biased key-union of the two error objects,
and validity is the conjunction.  The hypotheses state that each validator
output is a genuine JS object (distinct keys). -/
theorem C10_concat_homomorphism (v : JSValue) (xs ys : List ValidatorFn)
    (hx : ∀ f ∈ xs, ∀ e, f v = some e → (keysOf e).Nodup)
    (hy : ∀ f ∈ ys, ∀ e, f v = some e → (keysOf e).Nodup) :
    (validate v (.list (xs ++ ys))).errors
        = specUnion (validate v (.list xs)).errors
            (validate v (.list ys)).errors ∧
    (validate v (.list (xs ++ ys))).valid
        = ((validate v (.list xs)).valid && (validate v (.list ys)).valid) := by
  have hex : executeValidators v (xs ++ ys)
      = executeValidators v xs ++ executeValidators v ys :=
    List.map_append _ xs ys
  have hnodx : ∀ e, some e ∈ executeValidators v xs → (keysOf e).Nodup := by
    intro e he
    rcases List.mem_map.mp he with ⟨f, hf, hfe⟩
    exact hx f hf e hfe
  have hnody : ∀ e, some e ∈ executeValidators v ys → (keysOf e).Nodup := by
    intro e he
    rcases List.mem_map.mp he with ⟨f, hf, hfe⟩
    exact hy f hf e hfe
  have happ := mergeErrors_append _ _ hnodx hnody
  constructor
  · rw [validate_errors, validate_errors, validate_errors]
    show mergeErrors (executeValidators v (xs ++ ys)) = _
    rw [hex]
    exact happ
  · rw [validate_valid, validate_valid, validate_valid]
    show (mergeErrors (executeValidators v (xs ++ ys))).isNone
        = ((mergeErrors (executeValidators v xs)).isNone &&
           (mergeErrors (executeValidators v ys)).isNone)
    rw [hex]
    have hfold : (executeValidators v xs ++ executeValidators v ys).foldl
          mergeStep []
        = objAssign ((executeValidators v xs).foldl mergeStep [])
            ((executeValidators v ys).foldl mergeStep []) := by
      rw [List.foldl_append]
      exact foldl_mergeStep_from _ _
        (nodup_keysOf_foldl_mergeStep _ [] List.nodup_nil hnodx) hnody
    have hiff : (mergeErrors (executeValidators v xs
          ++ executeValidators v ys)).isNone = true ↔
        ((mergeErrors (executeValidators v xs)).isNone = true ∧
         (mergeErrors (executeValidators v ys)).isNone = true) := by
      rw [mergeErrors_isNone_iff, mergeErrors_isNone_iff,
        mergeErrors_isNone_iff, hfold, objAssign_eq_nil_iff]
    refine Bool.eq_iff_iff.mpr ?_
    rw [Bool.and_eq_true]
    exact hiff

theorem C10_witness :
    (validate .null (.list ([Validators.required] ++ [Validators.min 5]))).errors
        = specUnion (validate .null (.list [Validators.required])).errors
            (validate .null (.list [Validators.min 5])).errors ∧
    (validate .null (.list ([Validators.required] ++ [Validators.min 5]))).valid
        = ((validate .null (.list [Validators.required])).valid &&
           (validate .null (.list [Validators.min 5])).valid) := by
  refine C10_concat_homomorphism .null [Validators.required]
    [Validators.min 5] ?_ ?_
  · intro f hf e he
    rcases List.mem_singleton.mp hf with rfl
    have he' : [("required", ⟨"\"value\" is required", none⟩)] = e :=
      Option.some.inj he
    rw [← he']
    exact List.nodup_singleton _
  · intro f hf e he
    rcases List.mem_singleton.mp hf with rfl
    exact absurd he (by exact fun h => Option.noConfusion h)

/-! ### Exception-tracking validators (for the no-throw claim)

JS evaluation can throw; the only throwing operation reachable from the
validators on this universe is reading `.length` off `null` or `undefined`.
These `Except`-valued variants mirror the source expressions step by step,
making a `TypeError` explicit where JS would raise one. -/

/-- Reading `value.length`: throws on `null`/`undefined`, otherwise yields
the property (possibly `undefined`, i.e. `none`). -/
def lengthPropE : JSValue → Except String (Option Nat)
  | .null => .error "TypeError: Cannot read properties of null"
  | .undef => .error "TypeError: Cannot read properties of undefined"
  | v => .ok (jsLength v)

/-- `isEmptyValue` with the short-circuiting of
`value === null || typeof value === 'undefined' || value.length === 0`:
the `length` read happens only after the first two tests fail. -/
def isEmptyValueE (value : JSValue) : Except String Bool :=
  match value with
  | .null => .ok true
  | .undef => .ok true
  | v => do
    let l ← lengthPropE v
    pure (l == some 0)

/-- `Validators.required`, exception-tracking. -/
def requiredE (value : JSValue) : Except String (Option ValidationErrors) := do
  let e ← isEmptyValueE value
  if e then
    pure (some [("required", ⟨"\"value\" is required", none⟩)])
  else
    pure none

/-- `Validators.min`, exception-tracking. -/
def minE (m : Int) (value : JSValue) :
    Except String (Option ValidationErrors) := do
  let e1 ← isEmptyValueE value
  if e1 then
    pure none
  else do
    let e2 ← isEmptyValueE (.num m)
    if e2 then
      pure none
    else
      match toNumber value with
      | none => pure none
      | some n =>
        if n < m then
          pure (some [("min",
            ⟨s!"\"value\" must be greater than {m}", some (.minR m value)⟩)])
        else
          pure none

/-- `Validators.max`, exception-tracking. -/
def maxE (m : Int) (value : JSValue) :
    Except String (Option ValidationErrors) := do
  let e1 ← isEmptyValueE value
  if e1 then
    pure none
  else do
    let e2 ← isEmptyValueE (.num m)
    if e2 then
      pure none
    else
      match toNumber value with
      | none => pure none
      | some n =>
        if n > m then
          pure (some [("max",
            ⟨s!"\"value\" must be less than {m}", some (.maxR m value)⟩)])
        else
          pure none

/-- `Validators.minLength`, exception-tracking (`value.length ?? 0` reads
the property only after the emptiness guard). -/
def minLengthE (n : Int) (value : JSValue) :
    Except String (Option ValidationErrors) := do
  let e ← isEmptyValueE value
  if e then
    pure none
  else do
    let l ← lengthPropE value
    let length : Int := (l.getD 0 : Nat)
    if length < n then
      pure (some [("minLength",
        ⟨s!"\"value\" length must be at least {n} characters long",
         some (.lengthR n length)⟩)])
    else
      pure none

/-- `Validators.maxLength`, exception-tracking. -/
def maxLengthE (n : Int) (value : JSValue) :
    Except String (Option ValidationErrors) := do
  let e ← isEmptyValueE value
  if e then
    pure none
  else do
    let l ← lengthPropE value
    let length : Int := (l.getD 0 : Nat)
    if length > n then
      pure (some [("maxLength",
        ⟨s!"\"value\" length must be less than {n} characters long",
         some (.lengthR n length)⟩)])
    else
      pure none

/-- `Validators.pattern`, exception-tracking. -/
def patternE (p : JSRegExp) (value : JSValue) :
    Except String (Option ValidationErrors) := do
  let e ← isEmptyValueE value
  if e then
    pure none
  else if p.test (jsToString value) then
    pure none
  else
    pure (some [("pattern",
      ⟨s!"\"value\" fails to match the required pattern: {regexToString p}",
       some (.patternR p value)⟩)])

theorem ok_bind {α β : Type} (a : α) (f : α → Except String β) :
    (Except.ok a : Except String α) >>= f = f a := rfl

theorem pure_eq_ok {α : Type} (a : α) :
    (pure a : Except String α) = .ok a := rfl

theorem isEmptyValueE_ok (v : JSValue) :
    isEmptyValueE v = .ok (isEmptyValue v) := by
  cases v <;> rfl

theorem lengthPropE_ok_of_not_empty (v : JSValue)
    (h : isEmptyValue v = false) : lengthPropE v = .ok (jsLength v) := by
  cases v with
  | null => exact absurd h (by simp [isEmptyValue])
  | undef => exact absurd h (by simp [isEmptyValue])
  | bool b => rfl
  | num n => rfl
  | str s => rfl
  | arr xs => rfl

theorem requiredE_ok (v : JSValue) :
    requiredE v = .ok (Validators.required v) := by
  unfold requiredE Validators.required
  rw [isEmptyValueE_ok]
  by_cases h : isEmptyValue v
  · simp [ok_bind, pure_eq_ok, h]
  · simp [ok_bind, pure_eq_ok, h]

theorem minE_ok (m : Int) (v : JSValue) :
    minE m v = .ok (Validators.min m v) := by
  unfold minE Validators.min
  rw [isEmptyValueE_ok, isEmptyValueE_ok]
  by_cases h1 : isEmptyValue v
  · simp [ok_bind, pure_eq_ok, h1]
  · by_cases h2 : isEmptyValue (JSValue.num m)
    · simp [ok_bind, pure_eq_ok, h1, h2]
    · cases htn : toNumber v with
      | none => simp [ok_bind, pure_eq_ok, h1, h2, htn]
      | some n =>
        by_cases hnm : n < m <;>
          simp [ok_bind, pure_eq_ok, h1, h2, htn, hnm]

theorem maxE_ok (m : Int) (v : JSValue) :
    maxE m v = .ok (Validators.max m v) := by
  unfold maxE Validators.max
  rw [isEmptyValueE_ok, isEmptyValueE_ok]
  by_cases h1 : isEmptyValue v
  · simp [ok_bind, pure_eq_ok, h1]
  · by_cases h2 : isEmptyValue (JSValue.num m)
    · simp [ok_bind, pure_eq_ok, h1, h2]
    · cases htn : toNumber v with
      | none => simp [ok_bind, pure_eq_ok, h1, h2, htn]
      | some n =>
        by_cases hnm : n > m <;>
          simp [ok_bind, pure_eq_ok, h1, h2, htn, hnm]

theorem minLengthE_ok (n : Int) (v : JSValue) :
    minLengthE n v = .ok (Validators.minLength n v) := by
  unfold minLengthE Validators.minLength
  rw [isEmptyValueE_ok]
  by_cases h : isEmptyValue v
  · simp [ok_bind, pure_eq_ok, h]
  · rw [lengthPropE_ok_of_not_empty v (by simpa using h)]
    by_cases hl : (((jsLength v).getD 0 : Nat) : Int) < n <;>
      simp [ok_bind, pure_eq_ok, h, hl]

theorem maxLengthE_ok (n : Int) (v : JSValue) :
    maxLengthE n v = .ok (Validators.maxLength n v) := by
  unfold maxLengthE Validators.maxLength
  rw [isEmptyValueE_ok]
  by_cases h : isEmptyValue v
  · simp [ok_bind, pure_eq_ok, h]
  · rw [lengthPropE_ok_of_not_empty v (by simpa using h)]
    by_cases hl : (((jsLength v).getD 0 : Nat) : Int) > n <;>
      simp [ok_bind, pure_eq_ok, h, hl]

theorem patternE_ok (p : JSRegExp) (v : JSValue) :
    patternE p v = .ok (Validators.pattern p v) := by
  unfold patternE Validators.pattern
  rw [isEmptyValueE_ok]
  by_cases he : isEmptyValue v
  · simp [ok_bind, pure_eq_ok, he]
  · by_cases ht : p.test (jsToString v)
    · simp [ok_bind, pure_eq_ok, he, ht]
    · simp [ok_bind, pure_eq_ok, he, ht]

/-- C9: no exported validator ever throws: on every value of the universe,
each validator's exception-tracking evaluation succeeds and returns exactly
the pure result (`null` or an error record), never a `TypeError`. -/
theorem C9_validators_never_throw (v : JSValue) (m n k : Int)
    (r : JSRegExp) :
    requiredE v = .ok (Validators.required v) ∧
    minE m v = .ok (Validators.min m v) ∧
    maxE m v = .ok (Validators.max m v) ∧
    minLengthE n v = .ok (Validators.minLength n v) ∧
    maxLengthE k v = .ok (Validators.maxLength k v) ∧
    patternE r v = .ok (Validators.pattern r v) :=
  ⟨requiredE_ok v, minE_ok m v, maxE_ok m v, minLengthE_ok n v,
   maxLengthE_ok k v, patternE_ok r v⟩
